import Mathlib

/-!
Verification development for the macroscript text-expansion macro interpreter.

The interpreter is shallowly embedded here: strings are lists of characters
(all relevant scanning and splitting in the source walks characters with
`char_indices`, so character positions stand in for byte positions; every
concrete input used below is ASCII, where the two coincide), the `HashMap`
variable store is an association list with byte-exact keys, handler objects
are Lean functions, and the two rewriting loops of `apply_macros` as well
as the substitution loop of the text-macro expander take an explicit fuel
parameter; `RunResult.noFuel` means the fuel ran out, `RunResult.panicked`
models a Rust panic (in particular `String::replace_range` called with a
range that exceeds the buffer).
-/

namespace Macroscript

/-- Strings are modelled as lists of characters. -/
abbrev Str := List Char

/-! ## parsing.rs -/

/-- Character content of `parsing::unescape` (parsing.rs, `unescape`): a
backslash seen outside an escape is dropped and the next character is kept
literally.  The `found_escape` flag of the source only controls the
zero-copy return (`Cow::Borrowed` of the unchanged input when no backslash
occurs; characters before the first backslash are copied wholesale by
`string += &original[..idx]`); the character content produced is the same
either way, which is what this function computes. -/
def unescapeAux : Str → Bool → Str
  | [], _ => []
  | c :: rest, lastEscape =>
    if lastEscape = false ∧ c = '\\' then unescapeAux rest true
    else c :: unescapeAux rest false

/-- parsing.rs, `unescape`. -/
def unescape (s : Str) : Str := unescapeAux s false

/-- parsing.rs, `split_arguments`: escape-aware split of the bracket
interior on unescaped `/`.  The source collects spans and slices the
interior; this accumulator version produces the same segments, in order. -/
def splitArgsAux : Str → Bool → Str → List Str
  | [], _, cur => [cur.reverse]
  | c :: rest, lastEscaped, cur =>
    if lastEscaped then splitArgsAux rest false (c :: cur)
    else if c = '/' then cur.reverse :: splitArgsAux rest false []
    else splitArgsAux rest (c = '\\') (c :: cur)

/-- parsing.rs, `split_arguments`: first segment is the name, the rest are
the arguments. -/
def splitArguments (inside : Str) : Str × List Str :=
  match splitArgsAux inside false [] with
  | [] => ([], [])
  | n :: args => (n, args)

/-- parsing.rs, `find_innermost_brackets` loop: walks the source tracking
the one-bit `last_escaped` state, records each unescaped `[` as the
current candidate, and returns on the first unescaped `]` with a recorded
candidate.  `idx` is the position of the head of the remaining list. -/
def findInnermostAux : Str → Nat → Bool → Option Nat → Option (Nat × Nat)
  | [], _, _, _ => none
  | c :: rest, idx, lastEscaped, start =>
    if lastEscaped then findInnermostAux rest (idx + 1) false start
    else if c = '[' then findInnermostAux rest (idx + 1) false (some idx)
    else if c = ']' then
      match start with
      | some s => some (s, idx + 1)
      | none => findInnermostAux rest (idx + 1) false none
    else findInnermostAux rest (idx + 1) (c = '\\') start

/-- parsing.rs, `find_innermost_brackets`. -/
def find_innermost_brackets (l : Str) : Option (Nat × Nat) :=
  findInnermostAux l 0 false none

/-! Specification-side view of the escape scan, used to state properties of
the scanner: each character is paired with the flag saying whether the
scanner's `last_escaped` state is set when reaching it (i.e. whether the
character is escaped). -/

/-- Pair every character with its escaped-flag, starting from state `esc`. -/
def flagged : Str → Bool → List (Char × Bool)
  | [], _ => []
  | c :: rest, esc => (c, esc) :: flagged rest (if esc then false else c = '\\')

/-- State of the escape scanner after consuming `l`, starting from `esc`. -/
def flagAfter : Str → Bool → Bool
  | [], esc => esc
  | c :: rest, esc => flagAfter rest (if esc then false else c = '\\')

/-- Escape-flags of a whole source string. -/
def scanFlags (l : Str) : List (Char × Bool) := flagged l false

/-- There is an unescaped `[` at position `i` of `l`. -/
def uopenAt (l : Str) (i : Nat) : Prop := (scanFlags l).get? i = some ('[', false)

/-- There is an unescaped `]` at position `j` of `l`. -/
def ucloseAt (l : Str) (j : Nat) : Prop := (scanFlags l).get? j = some (']', false)

/-- The bracket scanner, rephrased over the flagged character list: the same
control flow as `findInnermostAux`, with the escape state pre-computed. -/
def scanPairs : List (Char × Bool) → Nat → Option Nat → Option (Nat × Nat)
  | [], _, _ => none
  | (c, esc) :: rest, idx, start =>
    if esc then scanPairs rest (idx + 1) start
    else if c = '[' then scanPairs rest (idx + 1) (some idx)
    else if c = ']' then
      match start with
      | some s => some (s, idx + 1)
      | none => scanPairs rest (idx + 1) none
    else scanPairs rest (idx + 1) start

/-- Number of unescaped `[` in a flagged character list. -/
def countOpensF : List (Char × Bool) → Nat
  | [] => 0
  | (c, esc) :: rest => (if c = '[' ∧ esc = false then 1 else 0) + countOpensF rest

/-- Number of unescaped `[` in a source string. -/
def countUnescapedOpen (l : Str) : Nat := countOpensF (scanFlags l)

/-- parsing.rs, `MacroRange`: range of the whole `[...]`, unescaped name,
unescaped arguments. -/
structure MacroRangeS where
  range : Nat × Nat
  name : Str
  arguments : List Str
  deriving DecidableEq, Repr

/-- parsing.rs, `find_pair`: locate the innermost bracket pair, split its
interior into name and arguments, and unescape name and arguments. -/
def findPair (source : Str) : Option MacroRangeS :=
  match find_innermost_brackets source with
  | none => none
  | some (s, e) =>
    let inside := (source.take (e - 1)).drop (s + 1)
    let na := splitArguments inside
    some ⟨(s, e), unescape na.1, na.2.map unescape⟩

/-- `String::replace_range`: `none` models the Rust panic raised when the
range does not lie inside the buffer. -/
def replaceRange (s : Str) (a b : Nat) (r : Str) : Option Str :=
  if a ≤ b ∧ b ≤ s.length then some (s.take a ++ r ++ s.drop b) else none

/-! ## execution.rs: error values and their display -/

/-- execution.rs, `MacroErrorKind`. -/
inductive MacroErrorKind where
  | NotEnoughArguments (expected found : Nat)
  | Nonexistent
  | User (message : Str)
  deriving DecidableEq, Repr

/-- execution.rs, `MacroError`. -/
structure MacroError where
  name : Str
  error_type : MacroErrorKind
  range : Nat × Nat
  deriving DecidableEq, Repr

/-- Decimal rendering of a natural number, as Rust's `Display` for usize. -/
def natRepr (n : Nat) : Str := (Nat.repr n).toList

/-- Decimal rendering of an integer, as Rust's `Display` for i64. -/
def intRepr (i : Int) : Str :=
  if i < 0 then '-' :: natRepr i.natAbs else natRepr i.natAbs

/-- execution.rs, `impl Display for MacroErrorKind`. -/
def renderKind : MacroErrorKind → Str
  | .NotEnoughArguments expected found =>
    (r"expected ").toList ++ natRepr expected ++ (r" arguments, found ").toList ++ natRepr found
  | .Nonexistent => (r"not found").toList
  | .User message => message

/-- execution.rs, `impl Display for MacroError`: the format string is
`error in macro {} at range {:?}: {}`, and `Debug` for `Range<usize>`
prints `start..end`. -/
def renderError (e : MacroError) : Str :=
  (r"error in macro ").toList ++ e.name ++ (r" at range ").toList ++ natRepr e.range.1
    ++ (r"..").toList ++ natRepr e.range.2 ++ (r": ").toList ++ renderKind e.error_type

/-- One single-character `str::replace`, character by character. -/
def replaceCharBy (c : Char) (r : Str) : Str → Str
  | [] => []
  | d :: rest => (if d = c then r else [d]) ++ replaceCharBy c r rest

/-- execution.rs, `throw_error!`: the error text substituted into a
failure token is escaped by `.replace("\\", r"\\").replace("[", r"\[")
.replace("]", r"\]")`, applied in that order. -/
def escapeFalseText (s : Str) : Str :=
  replaceCharBy ']' ((r"\]").toList)
    (replaceCharBy '[' ((r"\[").toList)
      (replaceCharBy '\\' ((r"\\").toList) s))

/-! ## execution.rs: the rewrite engine -/

/-- The variable store: `HashMap<String, String>` with byte-exact keys,
modelled as an association list (the spec declares insertion order
irrelevant). -/
abbrev Vars := List (Str × Str)

/-- `HashMap::get`. -/
def varsGet : Vars → Str → Option Str
  | [], _ => none
  | (k, v) :: rest, n => if k = n then some v else varsGet rest n

/-- `HashMap::insert` (overwrites an existing key). -/
def varsInsert : Vars → Str → Str → Vars
  | [], n, v => [(n, v)]
  | (k, w) :: rest, n, v =>
    if k = n then (k, v) :: rest else (k, w) :: varsInsert rest n v

/-- `HashMap::remove`. -/
def varsRemove : Vars → Str → Vars
  | [], _ => []
  | (k, w) :: rest, n => if k = n then rest else (k, w) :: varsRemove rest n

/-- `HashMap::contains_key`. -/
def varsContains (vs : Vars) (n : Str) : Bool := (varsGet vs n).isSome

/-- Outcome of one handler call (`Macro::apply`).  `panicked` models a Rust
panic inside the handler, `noFuel` exhaustion of the model's fuel. -/
inductive HandlerOut where
  | ok (s : Str)
  | err (e : MacroError)
  | panicked
  | noFuel
  deriving DecidableEq, Repr

/-- A handler object: `Macro::apply(range, arguments)` (execution.rs,
trait `Macro`). -/
abbrev Handler := (Nat × Nat) → List Str → HandlerOut

/-- The handler registry, keyed by byte-exact name. -/
abbrev Registry := List (Str × Handler)

/-- Registry lookup. -/
def regGet : Registry → Str → Option Handler
  | [], _ => none
  | (k, h) :: rest, n => if k = n then some h else regGet rest n

/-- Result of `apply_macros`. -/
inductive RunResult where
  | ok (s : Str)
  | error (e : MacroError)
  | panicked
  | noFuel
  deriving DecidableEq, Repr

/-- Outcome of dispatching one found invocation inside the inner loop of
`apply_macros` (execution.rs, the `match &*macro_range.name` block):
either the buffer was rewritten in place (`rewritten`, continuing the
inner loop), or a `try` pushed a child frame, or an error was raised
through `throw_error!` (`caught`, walking the try stack), or a registry
handler's error was propagated by the `?` operator directly to the caller
(`callerError`), or the code panicked, or fuel ran out. -/
inductive DispatchOut where
  | rewritten (vars : Vars) (buf : Str)
  | pushTry (child : Str) (hole : Nat × Nat)
  | caught (e : MacroError)
  | callerError (e : MacroError)
  | panicked
  | noFuel

/-- execution.rs, `apply_macros`, dispatch of one found invocation: the
`match &*macro_range.name` block, branch for branch.  Core names are
matched before the registry; registry-handler errors go to `callerError`
(the `?` on `mac.apply(...)`), core errors to `caught` (`throw_error!`). -/
def dispatch (reg : Registry) (vars : Vars) (buf : Str) (mr : MacroRangeS) : DispatchOut :=
  if mr.name = (r"try").toList then
    match mr.arguments.head? with
    | none => .caught ⟨(r"try").toList, .NotEnoughArguments 1 0, mr.range⟩
    | some a => .pushTry (unescape a) mr.range
  else if mr.name = (r"load").toList then
    match mr.arguments.head? with
    | none => .caught ⟨(r"load").toList, .NotEnoughArguments 1 0, mr.range⟩
    | some n =>
      match varsGet vars n with
      | none =>
        .caught ⟨(r"load").toList,
          .User ((r"variable ").toList ++ n ++ (r" does not currently exist").toList),
          mr.range⟩
      | some v =>
        match replaceRange buf mr.range.1 mr.range.2 v with
        | none => .panicked
        | some b => .rewritten vars b
  else if mr.name = (r"drop").toList then
    match mr.arguments.head? with
    | none => .caught ⟨(r"drop").toList, .NotEnoughArguments 1 0, mr.range⟩
    | some n =>
      match replaceRange buf mr.range.1 mr.range.2 [] with
      | none => .panicked
      | some b => .rewritten (varsRemove vars n) b
  else if mr.name = (r"store").toList then
    match mr.arguments.head? with
    | none => .caught ⟨(r"store").toList, .NotEnoughArguments 2 0, mr.range⟩
    | some n =>
      match mr.arguments.get? 1 with
      | none => .caught ⟨(r"store").toList, .NotEnoughArguments 2 1, mr.range⟩
      | some v =>
        match replaceRange buf mr.range.1 mr.range.2 [] with
        | none => .panicked
        | some b => .rewritten (varsInsert vars n v) b
  else if mr.name = (r"get").toList then
    match mr.arguments.head? with
    | none => .caught ⟨(r"get").toList, .NotEnoughArguments 2 0, mr.range⟩
    | some n =>
      match mr.arguments.get? 1 with
      | none => .caught ⟨(r"get").toList, .NotEnoughArguments 2 1, mr.range⟩
      | some v =>
        match varsGet vars n with
        | some cur =>
          match replaceRange buf mr.range.1 mr.range.2 cur with
          | none => .panicked
          | some b => .rewritten vars b
        | none =>
          match replaceRange buf mr.range.1 mr.range.2 v with
          | none => .panicked
          | some b => .rewritten (varsInsert vars n v) b
  else if mr.name = (r"is_stored").toList then
    match mr.arguments.head? with
    | none => .caught ⟨(r"is_stored").toList, .NotEnoughArguments 1 0, mr.range⟩
    | some n =>
      let text := if varsContains vars n then (r"true").toList else (r"false").toList
      match replaceRange buf mr.range.1 mr.range.2 text with
      | none => .panicked
      | some b => .rewritten vars b
  else
    match regGet reg mr.name with
    | none => .caught ⟨mr.name, .Nonexistent, mr.range⟩
    | some h =>
      match h mr.range mr.arguments with
      | .ok rep =>
        match replaceRange buf mr.range.1 mr.range.2 rep with
        | none => .panicked
        | some b => .rewritten vars b
      | .err e => .callerError e
      | .panicked => .panicked
      | .noFuel => .noFuel

/-- execution.rs, `throw_error!`: if a parent frame is on the try stack,
render the error, escape it, substitute the `false/...` token at the
parent's stored hole range and resume with the parent; with an empty
stack return the error to the caller. -/
def throwTo (stack : List (Str × Nat × Nat)) (e : MacroError) :
    Sum RunResult (Str × (Nat × Nat) × List (Str × Nat × Nat)) :=
  match stack with
  | [] => .inl (.error e)
  | (pbuf, ps, pe) :: rest =>
    match replaceRange pbuf ps pe ((r"false/").toList ++ escapeFalseText (renderError e)) with
    | none => .inl .panicked
    | some pbuf2 => .inr (pbuf2, (ps, pe), rest)

/-- execution.rs, `apply_macros`, both loops with explicit fuel.  The
current frame is `(buf, hole)`, `stack` holds the suspended parents each
with the hole range stored in its tuple.  When no invocation remains the
frame's result is substituted as a `true/...` token at the range stored in
the parent's own tuple (exactly as the source does with `par_range`). -/
def applyLoop (reg : Registry) :
    Nat → Vars → Str → (Nat × Nat) → List (Str × Nat × Nat) → RunResult
  | 0, _, _, _, _ => .noFuel
  | fuel + 1, vars, buf, hole, stack =>
    match findPair buf with
    | none =>
      match stack with
      | [] => .ok buf
      | (pbuf, ps, pe) :: rest =>
        match replaceRange pbuf ps pe ((r"true/").toList ++ buf) with
        | none => .panicked
        | some pbuf2 => applyLoop reg fuel vars pbuf2 (ps, pe) rest
    | some mr =>
      match dispatch reg vars buf mr with
      | .rewritten vars2 buf2 => applyLoop reg fuel vars2 buf2 hole stack
      | .pushTry child chole => applyLoop reg fuel vars child chole ((buf, hole.1, hole.2) :: stack)
      | .caught e =>
        match throwTo stack e with
        | .inl res => res
        | .inr (b, h, st) => applyLoop reg fuel vars b h st
      | .callerError e => .error e
      | .panicked => .panicked
      | .noFuel => .noFuel

/-- execution.rs, `apply_macros`: fresh variable store, try stack seeded
with the whole input and its full range. -/
def apply_macros (fuel : Nat) (input : Str) (reg : Registry) : RunResult :=
  applyLoop reg fuel [] input (0, input.length) []

/-! ## textmacro.rs: the text-macro expander -/

/-- textmacro.rs, enum `Substring`. -/
inductive SubKind where
  | count
  | index (n : Nat)
  deriving DecidableEq, Repr

/-- The sentinel `U+FFFF` used for escaped dollars. -/
def sentinelChar : Char := Char.ofNat 65535

/-- `target.replace(r"\$", "\u{FFFF}")`: left-to-right non-overlapping
replacement of the two-character substring. -/
def replaceEscDollar : Str → Str
  | '\\' :: '$' :: rest => sentinelChar :: replaceEscDollar rest
  | c :: rest => c :: replaceEscDollar rest
  | [] => []

/-- Numeric value of a digit string (usize::from_str on a digit run; a
value overflowing usize makes the source skip the site, which the
`arguments.len() >= v` filter below reproduces for any representable
argument list). -/
def natOfDigits (s : Str) : Nat := s.foldl (fun a c => a * 10 + (c.toNat - 48)) 0

/-- textmacro.rs, site classification inside `TextMacro::apply`: for a `$`
at `idx`, look at the following characters.  For `$#` and `$0` the source
computes `end` as the absolute position `idx + 2` and then pushes the
range `idx .. idx + end`; for `$<digits>` it computes the relative digit
run length `end` and pushes `idx .. idx + end + 1`.  Both are reproduced
verbatim, including the faulty absolute/relative mix. -/
def classifySite (passed : Str) (args : List Str) (idx : Nat) :
    Option ((Nat × Nat) × SubKind) :=
  let after := passed.drop (idx + 1)
  match after.head? with
  | some '#' => some ((idx, idx + (idx + 2)), .count)
  | some '0' => some ((idx, idx + (idx + 2)), .index 0)
  | some c =>
    if c.isDigit then
      let dlen := (after.takeWhile Char.isDigit).length
      let n := natOfDigits (after.take dlen)
      if args.length ≥ n then some ((idx, idx + dlen + 1), .index n) else none
    else none
  | none => none

/-- `rmatch_indices('$')`: positions of `$`, right to left. -/
def dollarIndicesRev (s : Str) : List Nat :=
  ((List.range s.length).filter fun i => s.get? i == some '$').reverse

/-- textmacro.rs, the `subs.drain(..)` loop: apply the collected
substitutions in order to the buffer; the boolean is `none_found`.
`none` models the panic of `String::replace_range` on an out-of-bounds
range. -/
def applySubs (args : List Str) (amount joined : Str) :
    List ((Nat × Nat) × SubKind) → Str → Bool → Option (Str × Bool)
  | [], passed, nf => some (passed, nf)
  | ((a, b), k) :: rest, passed, nf =>
    let repl? : Option Str :=
      match k with
      | .count => some amount
      | .index 0 => some joined
      | .index (n + 1) => args.get? n
    match repl? with
    | none => applySubs args amount joined rest passed nf
    | some repl =>
      match replaceRange passed a b repl with
      | none => none
      | some p2 => applySubs args amount joined rest p2 false

/-- `arguments.join("/")`. -/
def joinSlash : List Str → Str
  | [] => []
  | [a] => a
  | a :: rest => a ++ '/' :: joinSlash rest

/-- textmacro.rs, the `while !none_found` pass loop of `TextMacro::apply`,
with fuel (the loop need not terminate when substituted arguments contain
new sites). -/
def tmLoop (args : List Str) (amount joined : Str) : Nat → Str → HandlerOut
  | 0, _ => .noFuel
  | fuel + 1, target =>
    let sites := (dollarIndicesRev target).filterMap (classifySite target args)
    match applySubs args amount joined sites target true with
    | none => .panicked
    | some (p2, nf) =>
      if nf then .ok (replaceCharBy sentinelChar ['$'] p2)
      else tmLoop args amount joined fuel p2

/-- textmacro.rs, `TextMacro::apply`: protect escaped dollars with the
sentinel, run substitution passes to the fixpoint, then map the sentinel
back to `$`. -/
def textMacroApply (fuel : Nat) (pattern : Str) (args : List Str) : HandlerOut :=
  tmLoop args (natRepr args.length) (joinSlash args) fuel (replaceEscDollar pattern)

/-- A `TextMacro` registered as a handler (the trait object stored in the
registry); the handler ignores its range argument as the source does. -/
def textMacroHandler (fuel : Nat) (pattern : Str) : Handler :=
  fun _ args => textMacroApply fuel pattern args

/-! ## stdlib.rs: the two helper handlers exercised by the claims.
The stdlib snapshot in the repository constructs `MacroError` without a
range (it predates the range-carrying trait of execution.rs); the
embedding passes the invocation range supplied by the engine through,
which is the only range available to a handler. -/

/-- `i64::from_str`: optional sign, decimal digits, bounds checked. -/
def parseI64 (s : Str) : Option Int :=
  let digits : Str → Option Nat := fun d =>
    if d ≠ [] ∧ d.all Char.isDigit then some (natOfDigits d) else none
  match s with
  | '+' :: rest => (digits rest).bind fun n =>
      if (n : Int) ≤ 2 ^ 63 - 1 then some (n : Int) else none
  | '-' :: rest => (digits rest).bind fun n =>
      if (n : Int) ≤ 2 ^ 63 then some (-(n : Int)) else none
  | _ => (digits s).bind fun n =>
      if (n : Int) ≤ 2 ^ 63 - 1 then some (n : Int) else none

/-- `u32::from_str`: optional `+`, decimal digits, bounds checked. -/
def parseU32 (s : Str) : Option Nat :=
  let digits : Str → Option Nat := fun d =>
    if d ≠ [] ∧ d.all Char.isDigit then some (natOfDigits d) else none
  match s with
  | '+' :: rest => (digits rest).bind fun n => if n < 2 ^ 32 then some n else none
  | _ => (digits s).bind fun n => if n < 2 ^ 32 then some n else none

/-- Reinterpret a u64 bit pattern as i64 (`v as i64`). -/
def asI64 (n : Nat) : Int := if n < 2 ^ 63 then (n : Int) else (n : Int) - 2 ^ 64

/-- The conversion-failure message of `convert_to_number!` in stdlib.rs:
`could not convert argument {idx} "{arg}" to {ty}`. -/
def convMsg (idx : Nat) (arg ty : Str) : Str :=
  (r"could not convert argument ").toList ++ natRepr idx ++ [' ', '"'] ++ arg ++ ['"']
    ++ (r" to ").toList ++ ty

/-- stdlib.rs, `ShiftLeft` (`shl`): two arguments, lhs parsed as i64 and
cast to u64, rhs parsed as u32; `checked_shl` yields `None` exactly when
the shift amount is at least 64, raising the user error `shift amount of
{rhs} is too large`. -/
def shlHandler : Handler := fun range args =>
  match args with
  | [] => .err ⟨(r"shl").toList, .NotEnoughArguments 2 0, range⟩
  | [_] => .err ⟨(r"shl").toList, .NotEnoughArguments 2 1, range⟩
  | a :: b :: _ =>
    match parseI64 a with
    | none => .err ⟨(r"shl").toList, .User (convMsg 1 a ((r"i64").toList)), range⟩
    | some lhs =>
      match parseU32 b with
      | none => .err ⟨(r"shl").toList, .User (convMsg 2 b ((r"u32").toList)), range⟩
      | some rhs =>
        if rhs ≥ 64 then
          .err ⟨(r"shl").toList,
            .User ((r"shift amount of ").toList ++ natRepr rhs ++ (r" is too large").toList),
            range⟩
        else
          .ok (intRepr (asI64 ((lhs.emod (2 ^ 64)).toNat * 2 ^ rhs % 2 ^ 64)))

/-- stdlib.rs, `Error` (`error`): immediately raises a user error carrying
the first argument, or `no reason given`. -/
def errorHandler : Handler := fun range args =>
  .err ⟨(r"error").toList,
    .User (match args.head? with
           | some m => m
           | none => (r"no reason given").toList),
    range⟩

/-! ## Claim-side definitions -/

/-- The doubling escape named by the unescape round-trip claim: prefix
each occurrence of `\`, `[`, `]`, `/` with a single backslash (the
sequential `str::replace` chain of the spec inserts only fresh
backslashes, so it coincides with this character-wise form). -/
def doublingEscape : Str → Str
  | [] => []
  | c :: rest =>
    (if c = '\\' ∨ c = '[' ∨ c = ']' ∨ c = '/' then ['\\', c] else [c]) ++ doublingEscape rest

/-- `apply_macros` never finishes on this input, whatever the fuel. -/
def runsForever (input : Str) (reg : Registry) : Prop :=
  ∀ fuel, apply_macros fuel input reg = RunResult.noFuel

/-! ## Theorems -/

theorem flagged_length (l : Str) : ∀ e : Bool, (flagged l e).length = l.length := by
  induction l with
  | nil => intro e; rfl
  | cons c rest ih => intro e; simp [flagged, ih]

theorem flagged_append (a : Str) :
    ∀ (b : Str) (e : Bool), flagged (a ++ b) e = flagged a e ++ flagged b (flagAfter a e) := by
  induction a with
  | nil => intro b e; rfl
  | cons c rest ih => intro b e; simp [flagged, flagAfter, ih]

theorem flagAfter_append (a : Str) :
    ∀ (b : Str) (e : Bool), flagAfter (a ++ b) e = flagAfter b (flagAfter a e) := by
  induction a with
  | nil => intro b e; rfl
  | cons c rest ih => intro b e; simp [flagAfter, ih]

theorem countOpensF_append (x : List (Char × Bool)) :
    ∀ y, countOpensF (x ++ y) = countOpensF x + countOpensF y := by
  induction x with
  | nil => intro y; simp [countOpensF]
  | cons p rest ih => intro y; simp [countOpensF, ih]; ring

theorem flagged_get_char (l : Str) :
    ∀ (e : Bool) (k : Nat) (c : Char) (b : Bool),
      (flagged l e).get? k = some (c, b) →
      l.get? k = some c ∧ b = flagAfter (l.take k) e := by
  induction l with
  | nil => intro e k c b h; simp [flagged] at h
  | cons d rest ih =>
    intro e k c b h
    cases k with
    | zero =>
      simp [flagged] at h
      obtain ⟨h1, h2⟩ := h
      subst h1; subst h2
      exact ⟨rfl, rfl⟩
    | succ k =>
      simp only [flagged, List.get?_cons_succ] at h
      have := ih _ k c b h
      simpa [flagAfter] using this

theorem findInnermostAux_eq_scanPairs (l : Str) :
    ∀ (idx : Nat) (esc : Bool) (start : Option Nat),
      findInnermostAux l idx esc start = scanPairs (flagged l esc) idx start := by
  induction l with
  | nil => intro idx esc start; rfl
  | cons c rest ih =>
    intro idx esc start
    cases esc with
    | true => simpa [findInnermostAux, flagged, scanPairs] using ih (idx + 1) false start
    | false =>
      by_cases hc1 : c = '['
      · subst hc1
        simpa [findInnermostAux, flagged, scanPairs] using ih (idx + 1) false (some idx)
      · by_cases hc2 : c = ']'
        · subst hc2
          cases start with
          | some s => simp [findInnermostAux, flagged, scanPairs, hc1]
          | none =>
            simpa [findInnermostAux, flagged, scanPairs, hc1] using ih (idx + 1) false none
        · simpa [findInnermostAux, flagged, scanPairs, hc1, hc2] using
            ih (idx + 1) (decide (c = '\\')) start

theorem scanPairs_sound (G : List (Char × Bool)) (fl : List (Char × Bool)) :
    ∀ (idx : Nat) (start : Option Nat),
      (∀ m, fl.get? m = G.get? (idx + m)) →
      (∀ s0, start = some s0 → s0 < idx ∧ G.get? s0 = some ('[', false) ∧
        ∀ i, s0 < i → i < idx → G.get? i ≠ some ('[', false)) →
      (start = none → ∀ i, i < idx → G.get? i ≠ some ('[', false)) →
      (∀ k, k < idx → G.get? k = some (']', false) →
        ∀ i, i < k → G.get? i ≠ some ('[', false)) →
      (match scanPairs fl idx start with
       | some (s, e) =>
         G.get? s = some ('[', false) ∧ G.get? (e - 1) = some (']', false) ∧ s < e - 1 ∧
         (∀ k, k < e - 1 → G.get? k = some (']', false) →
           ∀ i, i < k → G.get? i ≠ some ('[', false)) ∧
         (∀ i, s < i → i < e - 1 → G.get? i ≠ some ('[', false))
       | none => ∀ j, G.get? j = some (']', false) →
           ∀ i, i < j → G.get? i ≠ some ('[', false)) := by
  induction fl with
  | nil =>
    intro idx start h1 h3 h4 h5
    simp only [scanPairs]
    intro j hj i hij
    by_cases hji : j < idx
    · exact h5 j hji hj i hij
    · exfalso
      have hnone : G.get? j = none := by
        have hm := h1 (j - idx)
        have hidx : idx + (j - idx) = j := by omega
        rw [hidx] at hm
        simpa using hm.symm
      rw [hnone] at hj
      exact Option.noConfusion hj
  | cons p rest ih =>
    obtain ⟨c, esc⟩ := p
    intro idx start h1 h3 h4 h5
    have hG : G.get? idx = some (c, esc) := by
      have := h1 0
      simpa using this.symm
    have h1' : ∀ m, rest.get? m = G.get? (idx + 1 + m) := by
      intro m
      have := h1 (m + 1)
      have harith : idx + (m + 1) = idx + 1 + m := by omega
      rw [harith] at this
      simpa using this
    cases esc with
    | true =>
      have hne_open : G.get? idx ≠ some ('[', false) := by
        rw [hG]; intro h; simp at h
      have hne_close : G.get? idx ≠ some (']', false) := by
        rw [hG]; intro h; simp at h
      have hres : scanPairs ((c, true) :: rest) idx start = scanPairs rest (idx + 1) start := by
        simp [scanPairs]
      rw [hres]
      refine ih (idx + 1) start h1' ?_ ?_ ?_
      · intro s0 hs
        obtain ⟨ha, hb, hc⟩ := h3 s0 hs
        refine ⟨by omega, hb, ?_⟩
        intro i hi1 hi2
        by_cases hii : i < idx
        · exact hc i hi1 hii
        · have : i = idx := by omega
          rw [this]; exact hne_open
      · intro hs i hi
        by_cases hii : i < idx
        · exact h4 hs i hii
        · have : i = idx := by omega
          rw [this]; exact hne_open
      · intro k hk hkc
        by_cases hkk : k < idx
        · exact h5 k hkk hkc
        · have : k = idx := by omega
          rw [this] at hkc
          exact absurd hkc hne_close
    | false =>
      by_cases hc1 : c = '['
      · subst hc1
        have hres : scanPairs (('[', false) :: rest) idx start
            = scanPairs rest (idx + 1) (some idx) := by
          simp [scanPairs]
        rw [hres]
        refine ih (idx + 1) (some idx) h1' ?_ ?_ ?_
        · intro s0 hs
          have hs0 : s0 = idx := by injection hs; omega
          subst hs0
          refine ⟨by omega, hG, ?_⟩
          intro i hi1 hi2
          omega
        · intro hs; exact Option.noConfusion hs
        · intro k hk hkc
          by_cases hkk : k < idx
          · exact h5 k hkk hkc
          · have : k = idx := by omega
            rw [this, hG] at hkc
            simp at hkc
      · by_cases hc2 : c = ']'
        · subst hc2
          cases start with
          | some s =>
            have hres : scanPairs ((']', false) :: rest) idx (some s) = some (s, idx + 1) := by
              simp [scanPairs, hc1]
            rw [hres]
            obtain ⟨ha, hb, hcc⟩ := h3 s rfl
            have he1 : idx + 1 - 1 = idx := by omega
            refine ⟨hb, by rw [he1]; exact hG, by omega, ?_, ?_⟩
            · intro k hk hkc
              exact h5 k (by omega) hkc
            · intro i hi1 hi2
              exact hcc i hi1 (by omega)
          | none =>
            have hres : scanPairs ((']', false) :: rest) idx none
                = scanPairs rest (idx + 1) none := by
              simp [scanPairs, hc1]
            rw [hres]
            refine ih (idx + 1) none h1' ?_ ?_ ?_
            · intro s0 hs; exact Option.noConfusion hs
            · intro _ i hi
              by_cases hii : i < idx
              · exact h4 rfl i hii
              · have : i = idx := by omega
                rw [this, hG]; intro h; simp at h
            · intro k hk hkc
              by_cases hkk : k < idx
              · exact h5 k hkk hkc
              · have : k = idx := by omega
                subst this
                intro i hik
                exact h4 rfl i hik
        · have hne_open : G.get? idx ≠ some ('[', false) := by
            rw [hG]; intro h; simp at h; exact hc1 h
          have hne_close : G.get? idx ≠ some (']', false) := by
            rw [hG]; intro h; simp at h; exact hc2 h
          have hres : scanPairs ((c, false) :: rest) idx start
              = scanPairs rest (idx + 1) start := by
            simp [scanPairs, hc1, hc2]
          rw [hres]
          refine ih (idx + 1) start h1' ?_ ?_ ?_
          · intro s0 hs
            obtain ⟨ha, hb, hcc⟩ := h3 s0 hs
            refine ⟨by omega, hb, ?_⟩
            intro i hi1 hi2
            by_cases hii : i < idx
            · exact hcc i hi1 hii
            · have : i = idx := by omega
              rw [this]; exact hne_open
          · intro hs i hi
            by_cases hii : i < idx
            · exact h4 hs i hii
            · have : i = idx := by omega
              rw [this]; exact hne_open
          · intro k hk hkc
            by_cases hkk : k < idx
            · exact h5 k hkk hkc
            · have : k = idx := by omega
              rw [this] at hkc
              exact absurd hkc hne_close

theorem find_innermost_characterization (l : Str) :
    match find_innermost_brackets l with
    | some (s, e) =>
      (scanFlags l).get? s = some ('[', false) ∧
      (scanFlags l).get? (e - 1) = some (']', false) ∧ s < e - 1 ∧
      (∀ k, k < e - 1 → (scanFlags l).get? k = some (']', false) →
        ∀ i, i < k → (scanFlags l).get? i ≠ some ('[', false)) ∧
      (∀ i, s < i → i < e - 1 → (scanFlags l).get? i ≠ some ('[', false))
    | none => ∀ j, (scanFlags l).get? j = some (']', false) →
        ∀ i, i < j → (scanFlags l).get? i ≠ some ('[', false) := by
  have heq : find_innermost_brackets l = scanPairs (scanFlags l) 0 none :=
    findInnermostAux_eq_scanPairs l 0 false none
  rw [heq]
  exact scanPairs_sound (scanFlags l) (scanFlags l) 0 none
    (fun m => by simp)
    (fun s0 hs => Option.noConfusion hs)
    (fun _ i hi => absurd hi (Nat.not_lt_zero i))
    (fun k hk => absurd hk (Nat.not_lt_zero k))

/-- C7: the scanner (`find_innermost_brackets`, used by `find_pair`)
returns `none` exactly when the source contains no unescaped `]` preceded
by an unescaped `[`; otherwise it returns the range pairing the first such
unescaped `]` with the nearest preceding unescaped `[`, inclusive of both
brackets, so that `start < end`, the character at `start` is `[` and the
character at `end - 1` is `]`. -/
theorem find_innermost_brackets_spec (l : Str) :
    (find_innermost_brackets l = none ↔
      ∀ j, ucloseAt l j → ∀ i, i < j → ¬ uopenAt l i) ∧
    (∀ s e, find_innermost_brackets l = some (s, e) →
      s < e ∧ l.get? s = some '[' ∧ l.get? (e - 1) = some ']' ∧
      uopenAt l s ∧ ucloseAt l (e - 1) ∧ s < e - 1 ∧
      (∀ k, k < e - 1 → ucloseAt l k → ∀ i, i < k → ¬ uopenAt l i) ∧
      (∀ i, s < i → i < e - 1 → ¬ uopenAt l i)) := by
  have hch := find_innermost_characterization l
  constructor
  · constructor
    · intro hnone
      rw [hnone] at hch
      intro j hj i hij hop
      exact hch j hj i hij hop
    · intro hno
      cases hfd : find_innermost_brackets l with
      | none => rfl
      | some p =>
        obtain ⟨s, e⟩ := p
        rw [hfd] at hch
        obtain ⟨hop, hcl, hlt, _, _⟩ := hch
        exact absurd hop (hno (e - 1) hcl s hlt)
  · intro s e hse
    rw [hse] at hch
    obtain ⟨hop, hcl, hlt, hfirst, hnear⟩ := hch
    have hgc1 := flagged_get_char l false s '[' false hop
    have hgc2 := flagged_get_char l false (e - 1) ']' false hcl
    exact ⟨by omega, hgc1.1, hgc2.1, hop, hcl, hlt,
      fun k hk hkc i hik hio => hfirst k hk hkc i hik hio,
      fun i h1 h2 hio => hnear i h1 h2 hio⟩

/-- Witness for C7 at the concrete source `a[b]c`. -/
theorem find_innermost_brackets_spec_witness :
    find_innermost_brackets ((r"a[b]c").toList) = some (1, 4) ∧
    (1 < 4 ∧ ((r"a[b]c").toList).get? 1 = some '[' ∧
      ((r"a[b]c").toList).get? 3 = some ']' ∧
      uopenAt ((r"a[b]c").toList) 1 ∧ ucloseAt ((r"a[b]c").toList) 3 ∧ 1 < 3 ∧
      (∀ k, k < 3 → ucloseAt ((r"a[b]c").toList) k →
        ∀ i, i < k → ¬ uopenAt ((r"a[b]c").toList) i) ∧
      (∀ i, 1 < i → i < 3 → ¬ uopenAt ((r"a[b]c").toList) i)) :=
  ⟨by decide, (find_innermost_brackets_spec ((r"a[b]c").toList)).2 1 4 (by decide)⟩

/-- C3 (amended): the scanner only returns a range whose interior contains
no other unescaped `[`; consequently a rewrite strictly reduces the number
of unescaped `[` in the buffer whenever its replacement string contains no
unescaped `[` and leaves the escape scanner unset.  (Replacements may
reintroduce unescaped `[` — e.g. `load` of a stored value containing
brackets — and then the count need not drop and the inner loop of
`apply_macros` need not terminate; see the counterexample.) -/
theorem scanner_interior_and_bracket_count (l : Str) (s e : Nat) (repl : Str)
    (hse : find_innermost_brackets l = some (s, e)) :
    (∀ i, s < i → i < e - 1 → ¬ uopenAt l i) ∧
    (countUnescapedOpen repl = 0 → flagAfter repl false = false →
      countUnescapedOpen (l.take s ++ repl ++ l.drop e) < countUnescapedOpen l) := by
  have hch := find_innermost_characterization l
  rw [hse] at hch
  obtain ⟨hop, hcl, hlt, hfirst, hnear⟩ := hch
  constructor
  · intro i h1 h2 hio
    exact hnear i h1 h2 hio
  · intro hrc hrf
    have hgc1 := flagged_get_char l false s '[' false hop
    have hgc2 := flagged_get_char l false (e - 1) ']' false hcl
    have hpre : flagAfter (l.take s) false = false := hgc1.2.symm
    have hel : e - 1 < l.length := by
      obtain ⟨hh, -⟩ := List.get?_eq_some.mp hgc2.1
      exact hh
    have hee : e ≤ l.length := by omega
    have hsle : s ≤ e := by omega
    have hpm : l.take s ++ (l.take e).drop s = l.take e := by
      have h1 : (l.take e).take s = l.take s := by
        rw [List.take_take]
        congr 1
        omega
      calc l.take s ++ (l.take e).drop s
          = (l.take e).take s ++ (l.take e).drop s := by rw [h1]
        _ = l.take e := List.take_append_drop _ _
    have htakee : l.take e = l.take (e - 1) ++ [']'] := by
      have h2 : l.take ((e - 1) + 1) = l.take (e - 1) ++ [']'] := by
        rw [List.take_succ]
        have h2a : l[e - 1]? = some ']' := by
          rw [← List.get?_eq_getElem?]
          exact hgc2.1
        rw [h2a]
        rfl
      have h3 : (e - 1) + 1 = e := by omega
      rw [h3] at h2
      exact h2
    have hfae : flagAfter (l.take e) false = false := by
      rw [htakee, flagAfter_append]
      cases flagAfter (l.take (e - 1)) false <;> simp [flagAfter]
    have hmidf : flagAfter ((l.take e).drop s) false = false := by
      have h3 : flagAfter (l.take s ++ (l.take e).drop s) false = false := by
        rw [hpm]; exact hfae
      rw [flagAfter_append, hpre] at h3
      exact h3
    have hmid0 : ((l.take e).drop s).get? 0 = some '[' := by
      rw [List.get?_drop]
      rw [List.get?_take (by omega : s + 0 < e)]
      simpa using hgc1.1
    obtain ⟨mid', hmid'⟩ : ∃ t, (l.take e).drop s = '[' :: t := by
      cases hm : (l.take e).drop s with
      | nil => rw [hm] at hmid0; simp at hmid0
      | cons a t =>
        rw [hm] at hmid0
        simp at hmid0
        subst hmid0
        exact ⟨t, rfl⟩
    have hldecomp : l = (l.take s ++ (l.take e).drop s) ++ l.drop e := by
      rw [hpm, List.take_append_drop]
    have hcl2 : countUnescapedOpen l
        = countOpensF (flagged (l.take s) false)
          + countOpensF (flagged ((l.take e).drop s) false)
          + countOpensF (flagged (l.drop e) false) := by
      conv_lhs => rw [show countUnescapedOpen l = countOpensF (flagged l false) from rfl,
        hldecomp]
      rw [flagged_append, countOpensF_append, flagged_append, countOpensF_append]
      rw [hpre, flagAfter_append, hpre, hmidf]
    have hcl3 : countUnescapedOpen (l.take s ++ repl ++ l.drop e)
        = countOpensF (flagged (l.take s) false)
          + countOpensF (flagged (l.drop e) false) := by
      have h4 : countUnescapedOpen (l.take s ++ repl ++ l.drop e)
          = countOpensF (flagged (l.take s ++ repl ++ l.drop e) false) := rfl
      have h5 : countOpensF (flagged repl false) = 0 := hrc
      rw [h4]
      simp only [flagged_append, countOpensF_append, flagAfter_append, hpre, hrf, h5]
      omega
    have hmge : 1 ≤ countOpensF (flagged ((l.take e).drop s) false) := by
      rw [hmid']
      simp [flagged, countOpensF]
    omega

/-- Witness for C3's amended theorem at the concrete source `[a]x` with
replacement `Z`. -/
theorem scanner_interior_and_bracket_count_witness :
    countUnescapedOpen (((r"[a]x").toList).take 0 ++ ['Z'] ++ ((r"[a]x").toList).drop 3)
      < countUnescapedOpen ((r"[a]x").toList) :=
  (scanner_interior_and_bracket_count ((r"[a]x").toList) 0 3 ['Z'] (by decide)).2
    (by decide) (by decide)

theorem loadLoopFixed :
    ∀ n, applyLoop [] n [((r"x").toList, (r"[load/x]").toList)]
      ((r"[load/x]").toList) (0, 29) [] = RunResult.noFuel := by
  intro n
  induction n with
  | zero => rfl
  | succ n ih => exact ih

/-- C3 (counterexample): the inner rewrite loop of `apply_macros` does not
terminate on `[store/x/\[load\/x\]][load/x]` with the empty registry —
the `load` rewrite replaces the whole buffer `[load/x]` by the stored
value `[load/x]`, reproducing the same state, so the count of unescaped
`[` never decreases and every fuel bound is exhausted. -/
theorem inner_rewrite_loop_nonterminating :
    runsForever ((r"[store/x/\[load\/x\]][load/x]").toList) [] := by
  intro fuel
  match fuel with
  | 0 => rfl
  | n + 1 =>
    have hstep : apply_macros (n + 1) ((r"[store/x/\[load\/x\]][load/x]").toList) []
        = applyLoop [] n [((r"x").toList, (r"[load/x]").toList)]
            ((r"[load/x]").toList) (0, 29) [] := rfl
    rw [hstep]
    exact loadLoopFixed n

/-- C8: unescape is a left inverse of the doubling escape — prefixing
every `\`, `[`, `]`, `/` of `s` with a single backslash and then applying
`unescape` yields `s` again. -/
theorem unescape_left_inverse_of_doubling_escape :
    ∀ s : Str, unescape (doublingEscape s) = s := by
  intro s
  induction s with
  | nil => rfl
  | cons c rest ih =>
    have ih2 : unescapeAux (doublingEscape rest) false = rest := ih
    by_cases h : c = '\\' ∨ c = '[' ∨ c = ']' ∨ c = '/'
    · have hne : ¬ (c = '\\' ∨ c = '[' ∨ c = ']' ∨ c = '/') → False := fun hh => hh h
      show unescapeAux (doublingEscape (c :: rest)) false = c :: rest
      rw [doublingEscape, if_pos h]
      show unescapeAux ('\\' :: c :: doublingEscape rest) false = c :: rest
      rw [unescapeAux, if_pos ⟨rfl, rfl⟩]
      rw [unescapeAux]
      rw [if_neg (by simp)]
      rw [ih2]
    · have hc : c ≠ '\\' := fun hh => h (Or.inl hh)
      show unescapeAux (doublingEscape (c :: rest)) false = c :: rest
      rw [doublingEscape, if_neg h]
      show unescapeAux (c :: doublingEscape rest) false = c :: rest
      rw [unescapeAux, if_neg (by simp [hc])]
      rw [ih2]

/-- C4 (counterexample): the rendered form of a `MacroError` is not
`error in macro <name>: <kind>` — the source's `Display` implementation
(execution.rs, `impl Display for MacroError`) inserts ` at range
<start>..<end>` after the name. -/
theorem render_error_includes_range :
    renderError ⟨(r"shl").toList,
        .User ((r"shift amount of 100 is too large").toList), (0, 11)⟩
      ≠ (r"error in macro shl: shift amount of 100 is too large").toList ∧
    renderError ⟨(r"shl").toList,
        .User ((r"shift amount of 100 is too large").toList), (0, 11)⟩
      = (r"error in macro shl at range 0..11: shift amount of 100 is too large").toList :=
  ⟨by decide, by decide⟩

/-- C4 (amended): a `MacroError` always renders as
`error in macro <name> at range <start>..<end>: <kind>` with the kind
rendered as `expected <expected> arguments, found <found>`, `not found`,
or the user message; this rendered form is exactly what `throw_error!`
escapes into the `false/...` token substituted at the parent frame's
stored hole, and the error surfaced to the caller when the try stack is
empty carries the same name, kind and range. -/
theorem error_render_format (e : MacroError) (expected found : Nat) (m : Str)
    (pbuf : Str) (ps pe : Nat) (rest : List (Str × Nat × Nat)) :
    renderError e
      = (r"error in macro ").toList ++ e.name ++ (r" at range ").toList
        ++ natRepr e.range.1 ++ (r"..").toList ++ natRepr e.range.2
        ++ (r": ").toList ++ renderKind e.error_type ∧
    renderKind (.NotEnoughArguments expected found)
      = (r"expected ").toList ++ natRepr expected
        ++ (r" arguments, found ").toList ++ natRepr found ∧
    renderKind .Nonexistent = (r"not found").toList ∧
    renderKind (.User m) = m ∧
    throwTo [] e = Sum.inl (RunResult.error e) ∧
    (ps ≤ pe → pe ≤ pbuf.length →
      throwTo ((pbuf, ps, pe) :: rest) e
        = Sum.inr (pbuf.take ps ++ (r"false/").toList
            ++ escapeFalseText (renderError e) ++ pbuf.drop pe, (ps, pe), rest)) := by
  refine ⟨rfl, rfl, rfl, rfl, rfl, ?_⟩
  intro h1 h2
  show (match replaceRange pbuf ps pe ((r"false/").toList ++ escapeFalseText (renderError e)) with
    | none => Sum.inl RunResult.panicked
    | some pbuf2 => Sum.inr (pbuf2, (ps, pe), rest))
    = Sum.inr (pbuf.take ps ++ (r"false/").toList
        ++ escapeFalseText (renderError e) ++ pbuf.drop pe, (ps, pe), rest)
  rw [replaceRange, if_pos ⟨h1, h2⟩]
  simp [List.append_assoc]

/-- Witness for C4's amended theorem at a concrete error and frame. -/
theorem error_render_format_witness :
    throwTo [((r"abcde").toList, 1, 3)]
        ⟨(r"load").toList, .Nonexistent, (1, 3)⟩
      = Sum.inr (((r"abcde").toList).take 1 ++ (r"false/").toList
          ++ escapeFalseText (renderError ⟨(r"load").toList, .Nonexistent, (1, 3)⟩)
          ++ ((r"abcde").toList).drop 3, (1, 3), []) :=
  (error_render_format ⟨(r"load").toList, .Nonexistent, (1, 3)⟩ 0 0 []
    ((r"abcde").toList) 1 3 []).2.2.2.2.2 (by decide) (by decide)

/-- C1 (code behaviour at the failing input): an error raised by the
registry handler `shl` inside a `try` body is not caught — `apply_macros`
on `[try/\[shl\/5\/100\]]` returns the error to the caller (the `?` on
`mac.apply` in execution.rs bypasses the try stack) instead of producing
the token `false/shift amount of 100 is too large`. -/
theorem registry_error_escapes_try :
    apply_macros 50 ((r"[try/\[shl\/5\/100\]]").toList) [((r"shl").toList, shlHandler)]
      = RunResult.error ⟨(r"shl").toList,
          .User ((r"shift amount of 100 is too large").toList), (0, 11)⟩ ∧
    apply_macros 50 ((r"[try/\[shl\/5\/100\]]").toList) [((r"shl").toList, shlHandler)]
      ≠ RunResult.ok ((r"false/shift amount of 100 is too large").toList) := by
  constructor
  · rfl
  · intro h
    exact absurd ((rfl :
      apply_macros 50 ((r"[try/\[shl\/5\/100\]]").toList) [((r"shl").toList, shlHandler)]
        = RunResult.error ⟨(r"shl").toList,
            .User ((r"shift amount of 100 is too large").toList), (0, 11)⟩).symm.trans h)
      (by decide)

/-- C2 (code behaviour at the failing input): `apply_macros` panics on the
input `[m]` when `m` is a `TextMacro` with pattern `ab$#` — the site range
computed for `$#` in textmacro.rs is `idx .. idx + (idx + 2)`, here
`2..6`, which exceeds the four-character buffer and makes
`String::replace_range` panic. -/
theorem text_macro_count_site_panics :
    apply_macros 50 ((r"[m]").toList)
        [((r"m").toList, textMacroHandler 50 ((r"ab$#").toList))]
      = RunResult.panicked := rfl

/-- C5 (code behaviour at the failing input): on fresh state, `[load/x]`
raises a user error whose message is `variable x does not currently
exist` — without the double quotes around the name that the spec (and the
core doc-test in stdlib.rs) require. -/
theorem load_error_message_unquoted :
    apply_macros 10 ((r"[load/x]").toList) []
      = RunResult.error ⟨(r"load").toList,
          .User ((r"variable x does not currently exist").toList), (0, 8)⟩ ∧
    ((r"variable x does not currently exist").toList : Str)
      ≠ (r"variable ").toList ++ ['"'] ++ (r"x").toList ++ ['"']
        ++ (r" does not currently exist").toList :=
  ⟨rfl, by decide⟩

/-- C6 (code behaviour at the failing input): expanding the `TextMacro`
pattern `ab$#cdef` with zero arguments yields `ab0ef` — the `$#` site at
index 2 is replaced over the range `2..6` instead of its own range
`2..4`, swallowing `cd`; replacing exactly the site would give
`ab0cdef`. -/
theorem dollar_count_site_wrong_range :
    textMacroApply 10 ((r"ab$#cdef").toList) [] = HandlerOut.ok ((r"ab0ef").toList) ∧
    textMacroApply 10 ((r"ab$#cdef").toList) [] ≠ HandlerOut.ok ((r"ab0cdef").toList) :=
  ⟨rfl, by decide⟩

/-- C9 (code behaviour at the failing input): evaluating
`[try/\[store\/x\/1\]\[error\/bad\]][load/x]` returns the `error`
handler's user error `bad` to the caller — the `?` in execution.rs
bypasses the try stack for registry handlers, so the trailing `[load/x]`
is never evaluated (the store of `x` itself is not rolled back, but its
persistence cannot be observed because the evaluation aborts). -/
theorem try_store_error_scenario_aborts :
    apply_macros 50 ((r"[try/\[store\/x\/1\]\[error\/bad\]][load/x]").toList)
        [((r"error").toList, errorHandler)]
      = RunResult.error ⟨(r"error").toList, .User ((r"bad").toList), (0, 11)⟩ := rfl

/-- C10: every core handler ignores surplus arguments — dispatching
`try`, `load`, `drop` or `is_stored` with extra arguments after the first,
or `store`/`get` with extra arguments after the second, takes exactly the
same step as with only the required arguments; concretely,
`[store/x/5/zz][load/x/yy][is_stored/x/q]` evaluates to `5true`. -/
theorem core_handlers_ignore_extra_arguments :
    ∀ (reg : Registry) (vars : Vars) (buf : Str) (rg : Nat × Nat)
      (a b : Str) (extra : List Str),
      dispatch reg vars buf ⟨rg, (r"try").toList, a :: extra⟩
        = dispatch reg vars buf ⟨rg, (r"try").toList, [a]⟩ ∧
      dispatch reg vars buf ⟨rg, (r"load").toList, a :: extra⟩
        = dispatch reg vars buf ⟨rg, (r"load").toList, [a]⟩ ∧
      dispatch reg vars buf ⟨rg, (r"drop").toList, a :: extra⟩
        = dispatch reg vars buf ⟨rg, (r"drop").toList, [a]⟩ ∧
      dispatch reg vars buf ⟨rg, (r"store").toList, a :: b :: extra⟩
        = dispatch reg vars buf ⟨rg, (r"store").toList, [a, b]⟩ ∧
      dispatch reg vars buf ⟨rg, (r"get").toList, a :: b :: extra⟩
        = dispatch reg vars buf ⟨rg, (r"get").toList, [a, b]⟩ ∧
      dispatch reg vars buf ⟨rg, (r"is_stored").toList, a :: extra⟩
        = dispatch reg vars buf ⟨rg, (r"is_stored").toList, [a]⟩ ∧
      apply_macros 10 ((r"[store/x/5/zz][load/x/yy][is_stored/x/q]").toList) []
        = RunResult.ok ((r"5true").toList) :=
  fun _ _ _ _ _ _ _ => ⟨rfl, rfl, rfl, rfl, rfl, rfl, rfl⟩

end Macroscript

